import Mathlib

/-!
Verification development for the DICOM Anonymizer repository
(`dicom_anonymizer_app.py`).  The anonymization rule engine
(`DicomAnonymizer.ANONYMIZATION_RULES`, `DicomAnonymizer.anonymize_dicom`),
file discovery (`DicomAnonymizer.find_dicom_files`) and the batch pipeline
(`AnonymizationWorker.run`) are shallowly embedded below; theorems about the
embedding settle the specification's claims.
-/

set_option maxRecDepth 10000

namespace DicomApp

/-- A DICOM tag identifier.  Standard tags are addressed by their keyword
(as `pydicom` does for `tag in dataset` / `del dataset[tag]`); private
(vendor) tags carry no keyword and are flagged via `is_private`. -/
inductive Tag where
  | std : String → Tag
  | pvt : Nat → Tag
deriving DecidableEq

/-- The `tag.is_private` flag of a pydicom tag. -/
def Tag.is_private : Tag → Bool
  | .std _ => false
  | .pvt _ => true

/-- An attribute value.  `str s` is a value whose Python `str()` yields the
character sequence `s`; `raw k` stands for a value on which `str()` (or the
subsequent handling inside the date-shift `try` block) raises. -/
inductive Value where
  | str : List Char → Value
  | raw : Nat → Value
deriving DecidableEq

/-- Python `str(value)`, as used by the date-shift step; `none` models the
raising case that the surrounding `except` swallows. -/
def Value.stringify : Value → Option (List Char)
  | .str s => some s
  | .raw _ => none

/-- A pydicom `Dataset` restricted to what the engine reads: an ordered
mapping from tag to value.  Real datasets hold at most one element per tag. -/
abbrev Record := List (Tag × Value)

/-- Boolean equality test against a fixed tag, used by the list operations. -/
def tagEq (t : Tag) : Tag × Value → Bool := fun e => decide (e.1 = t)

/-- Membership test `tag in dicom_file`. -/
def containsTag (n : String) (r : Record) : Bool := r.any (tagEq (Tag.std n))

/-- Deletion `del dicom_file[t]` for an arbitrary tag object. -/
def delElems (t : Tag) (r : Record) : Record := r.filter (fun e => !(tagEq t e))

/-- Deletion `del dicom_file[n]` by keyword. -/
def delTag (n : String) (r : Record) : Record := delElems (Tag.std n) r

/-- Assignment `dicom_file[n].value = v`. -/
def setValue (n : String) (v : Value) (r : Record) : Record :=
  r.map (fun e => if e.1 = Tag.std n then (e.1, v) else e)

/-- Reading `dicom_file[n].value`. -/
def getValue (n : String) (r : Record) : Option Value :=
  (r.find? (tagEq (Tag.std n))).map Prod.snd

/-- The keys of a record, in order (`dicom_file.keys()`). -/
def keys (r : Record) : List Tag := r.map Prod.fst

/-- The rule dictionary: `ANONYMIZATION_RULES` has a list of tags to remove,
a keyword-to-literal replacement mapping, and the date-shift targets (the
`date_shift` dict maps every listed keyword to `True`, so only its key list
matters). -/
structure RuleSet where
  remove : List String
  replace : List (String × String)
  date_shift : List String
deriving DecidableEq

/-- The dictionary `DicomAnonymizer.ANONYMIZATION_RULES`, verbatim from the source. -/
def ANONYMIZATION_RULES : RuleSet :=
  { remove :=
      ["PatientName", "PatientID", "PatientBirthDate", "PatientAge",
       "PatientSex", "PatientAddress", "PatientTelephoneNumbers",
       "StudyInstanceUID", "SeriesInstanceUID", "StudyDate", "SeriesDate",
       "ContentDate", "StudyTime", "SeriesTime", "ContentTime",
       "AcquisitionDateTime", "StudyDescription", "SeriesDescription",
       "ReferringPhysicianName", "PerformingPhysicianName", "OperatorsName",
       "InstitutionName", "InstitutionAddress", "Manufacturer",
       "ManufacturerModelName", "DeviceSerialNumber", "StationName"],
    replace :=
      [("PatientName", "ANONYMIZED"),
       ("PatientID", "ANON-ID-001"),
       ("ReferringPhysicianName", "ANONYMIZED"),
       ("PerformingPhysicianName", "ANONYMIZED"),
       ("OperatorsName", "ANONYMIZED"),
       ("InstitutionName", "ANONYMIZED")],
    date_shift :=
      ["StudyDate", "SeriesDate", "PatientBirthDate", "ContentDate",
       "AcquisitionDate"] }

/-- One iteration of the `for tag in rules['remove']` loop. -/
def removeStep (rc : Record × Nat) (n : String) : Record × Nat :=
  if containsTag n rc.1 then (delTag n rc.1, rc.2 + 1) else rc

/-- The remove pass of `anonymize_dicom`. -/
def removePass (ns : List String) (rc : Record × Nat) : Record × Nat :=
  ns.foldl removeStep rc

/-- One iteration of the `for tag, replacement_value in rules['replace'].items()`
loop. -/
def replaceStep (rc : Record × Nat) (p : String × String) : Record × Nat :=
  if containsTag p.1 rc.1 then (setValue p.1 (.str p.2.toList) rc.1, rc.2 + 1) else rc

/-- The replace pass of `anonymize_dicom`. -/
def replacePass (ps : List (String × String)) (rc : Record × Nat) : Record × Nat :=
  ps.foldl replaceStep rc

/-- One iteration of the `for tag in rules['date_shift']` loop:
`current_value = str(dicom_file[tag].value)`; when it has at least 8
characters the value becomes the first four characters (the year) followed by
the literal `'0101'`; a raising `str()` is swallowed by the inner `except`. -/
def dateShiftStep (rc : Record × Nat) (n : String) : Record × Nat :=
  if containsTag n rc.1 then
    match getValue n rc.1 with
    | some v =>
      match v.stringify with
      | some s =>
        if 8 ≤ s.length then
          (setValue n (.str (s.take 4 ++ "0101".toList)) rc.1, rc.2 + 1)
        else rc
      | none => rc
    | none => rc
  else rc

/-- The date-shift pass of `anonymize_dicom`. -/
def dateShiftPass (ns : List String) (rc : Record × Nat) : Record × Nat :=
  ns.foldl dateShiftStep rc

/-- The private-tag purge: `tags_to_remove = [tag for tag in dicom_file.keys()
if tag.is_private]`, then each listed tag is deleted and counted.  (Dataset
keys are unique, so the comprehension lists each private tag once.) -/
def purgePass (rc : Record × Nat) : Record × Nat :=
  let ts := (keys rc.1).filter Tag.is_private
  ts.foldl (fun acc t => (delElems t acc.1, acc.2 + 1)) rc

/-- One guarded UID regeneration: `if n in dicom_file: dicom_file.n =
generate_uid()`.  The pair's second component counts the `generate_uid()`
calls made, indexing into the fresh-UID source. -/
def uidStep (fresh : Nat → List Char) (rk : Record × Nat) (n : String) : Record × Nat :=
  if containsTag n rk.1 then (setValue n (.str (fresh rk.2)) rk.1, rk.2 + 1) else rk

/-- The three UID regenerations at the end of `anonymize_dicom`, in source
order: SOPInstanceUID, StudyInstanceUID, SeriesInstanceUID. -/
def uidPass (fresh : Nat → List Char) (r : Record) : Record :=
  (uidStep fresh (uidStep fresh (uidStep fresh (r, 0)
      "SOPInstanceUID") "StudyInstanceUID") "SeriesInstanceUID").1

/-- The UID-bearing keywords touched by the regeneration block. -/
def uidTags : List String := ["SOPInstanceUID", "StudyInstanceUID", "SeriesInstanceUID"]

/-- The body of `anonymize_dicom` on an enumerable dataset: the four rule
passes followed by UID regeneration, threading `anonymized_count`. -/
def anonymizeCore (fresh : Nat → List Char) (rules : RuleSet) (r : Record) :
    Record × Nat :=
  let rc1 := removePass rules.remove (r, 0)
  let rc2 := replacePass rules.replace rc1
  let rc3 := dateShiftPass rules.date_shift rc2
  let rc4 := purgePass rc3
  (uidPass fresh rc4.1, rc4.2)

/-- The argument to `anonymize_dicom`: either a well-formed dataset or a
structurally invalid object whose attribute enumeration raises with the given
message (caught by the function's outer `except`). -/
inductive DicomInput where
  | ds : Record → DicomInput
  | invalid : String → DicomInput
deriving DecidableEq

/-- The count `len(dicom_data)` before anonymization. -/
def datasetLen : DicomInput → Nat
  | .ds r => r.length
  | .invalid _ => 0

/-- The function `DicomAnonymizer.anonymize_dicom`: returns `(True, anonymized_count)` on
success (here `.ok` with the mutated record), and `(False, str(e))` when the
input cannot be processed (here `.error`). -/
def anonymize_dicom (fresh : Nat → List Char) (rules : RuleSet) :
    DicomInput → Except String (Record × Nat)
  | .ds r => .ok (anonymizeCore fresh rules r)
  | .invalid m => .error m

-- Sanity checks on concrete records (mirrors hand-executing the Python).
example :
    anonymize_dicom (fun _ => "2.25.1".toList) ANONYMIZATION_RULES
      (.ds [(Tag.std "StudyDate", Value.str "20210615".toList)]) =
    .ok ([], 1) := by rfl

example :
    anonymize_dicom (fun _ => "2.25.1".toList) ANONYMIZATION_RULES
      (.ds [(Tag.std "AcquisitionDate", Value.str "20210615".toList)]) =
    .ok ([(Tag.std "AcquisitionDate", Value.str "20210101".toList)], 1) := by rfl

/-! ### Batch pipeline (`AnonymizationWorker.run`, `find_dicom_files`) -/

/-- Content of one file on disk: either `pydicom.dcmread` raises with the
given message, or it yields a dataset (possibly one that the engine itself
then rejects). -/
inductive FileContent where
  | loadFail : String → FileContent
  | data : DicomInput → FileContent
deriving DecidableEq

/-- The filesystem a run sees: existing directory paths plus files
(path, content). -/
structure FS where
  dirs : List String
  files : List (String × FileContent)
deriving DecidableEq

/-- The check `Path(p).exists()`: directories and files both count. -/
def FS.pathExists (fs : FS) (p : String) : Bool :=
  fs.dirs.any (fun d => decide (d = p)) || fs.files.any (fun q => decide (q.1 = p))

/-- Whether path `p` lies (recursively) under directory `d`, as `rglob` walks
it: `d` with a path-separator appended leads `p`. -/
def underDir (d p : String) : Bool := (d ++ "/").toList.isPrefixOf p.toList

/-- Lexicographic comparison of two character sequences by code point, the
order Python string comparison uses. -/
def strLe : List Char → List Char → Bool
  | [], _ => true
  | _ :: _, [] => false
  | x :: xs, y :: ys => if x = y then strLe xs ys else decide (x < y)

/-- Insertion of a path into a lexicographically sorted list, for the
`sorted(...)` call of `find_dicom_files`. -/
def insertSorted (x : String) : List String → List String
  | [] => [x]
  | y :: ys => if strLe x.toList y.toList then x :: y :: ys else y :: insertSorted x ys

/-- Sorting `sorted(paths)`. -/
def sortPaths (ps : List String) : List String := ps.foldr insertSorted []

/-- The function `DicomAnonymizer.find_dicom_files`: if the directory exists, every file
under it whose name ends in `.dcm`, lexicographically sorted; otherwise the
empty list. -/
def find_dicom_files (fs : FS) (directory : String) : List String :=
  if fs.pathExists directory then
    sortPaths (((fs.files.map Prod.fst).filter
      (fun p => underDir directory p && ".dcm".toList.isSuffixOf p.toList)))
  else []

/-- The `stats` dictionary of the worker run. -/
structure Stats where
  total : Nat
  successful : Nat
  failed : Nat
  total_tags_removed : Nat
  errors : List String
deriving DecidableEq

/-- The payload of the worker's `finished` signal. -/
inductive RunFinished where
  | error : String → RunFinished
  | success : Stats → RunFinished
deriving DecidableEq

/-- Observable outcome of one run: the `finished` payload, the sequences of
`progress` and `status` emissions, and whether the output directory was
created. -/
structure RunResult where
  finished : RunFinished
  progressEvents : List Nat
  statusEvents : List String
  createdOutputDir : Bool
deriving DecidableEq

/-- The name `Path(file_path).name`: everything after the last path separator. -/
def baseName (p : String) : String :=
  ⟨(p.toList.reverse.takeWhile (fun c => !decide (c = '/'))).reverse⟩

/-- Looking a discovered path up on disk. -/
def lookupFile (fs : FS) (p : String) : Option FileContent :=
  (fs.files.find? (fun q => decide (q.1 = p))).map Prod.snd

/-- What happened to one file inside the worker loop body. -/
inductive Outcome where
  | loadErr : String → Outcome
  | engineErr : String → Outcome
  | okFile : Nat → Outcome
deriving DecidableEq

/-- Classify one file: `load_dicom` wraps any codec failure as
`Error loading DICOM: ...` (caught by the loop's `except`); a loadable
dataset goes through `anonymize_dicom`, whose `False` result is the
engine-error branch; otherwise the saved file removed
`len(before) - len(after)` tags. -/
def fileOutcome (fs : FS) (fresh : Nat → List Char) (p : String) : Outcome :=
  match lookupFile fs p with
  | none => .loadErr "Error loading DICOM: file not found"
  | some (.loadFail m) => .loadErr ("Error loading DICOM: " ++ m)
  | some (.data d) =>
    match anonymize_dicom fresh ANONYMIZATION_RULES d with
    | .error m => .engineErr m
    | .ok rc => .okFile (datasetLen d - rc.1.length)

/-- The status line emitted after a processed file:
`Processing idx/total: name`. -/
def statusLine (idx total : Nat) (p : String) : String :=
  "Processing " ++ toString idx ++ "/" ++ toString total ++ ": " ++ baseName p

/-- Number of binary digits of a natural number, with explicit fuel so the
kernel can evaluate it. -/
def bitLenAux : Nat → Nat → Nat
  | 0, _ => 0
  | fuel + 1, n => if n = 0 then 0 else bitLenAux fuel (n / 2) + 1

/-- Number of binary digits of a natural number (0 for 0). -/
def bitLen (n : Nat) : Nat := bitLenAux n n

/-- Rounding of the quotient a/b to the nearest integer, ties to even, as
IEEE 754 arithmetic rounds (b ≥ 1). -/
def rnInt (a b : Nat) : Nat :=
  let q := a / b
  let r := a % b
  if 2 * r < b then q
  else if b < 2 * r then q + 1
  else if q % 2 = 0 then q else q + 1

/-- The IEEE binary64 value nearest to num/den (round to nearest, ties to
even, 53-bit significand, minimum exponent -1074, as Python float division
computes it), represented as a dyadic pair (m, e) of value m·2^e. -/
def roundRat (num den : Nat) : Nat × Int :=
  if num = 0 then (0, 0)
  else
    let a : Int := bitLen num
    let b : Int := bitLen den
    let t : Int := a - b
    let ge : Bool :=
      if 0 ≤ t then decide (den * 2 ^ t.toNat ≤ num)
      else decide (den ≤ num * 2 ^ (-t).toNat)
    let e : Int := if ge then t else t - 1
    let q : Int := max (e - 52) (-1074)
    if 0 ≤ q then (rnInt num (den * 2 ^ q.toNat), q)
    else (rnInt (num * 2 ^ (-q).toNat) den, q)

/-- The correctly rounded binary64 product of the dyadic m·2^e with the
exactly representable constant 100, as Python's `* 100` computes it. -/
def fmul100 : Nat × Int → Nat × Int
  | (m, e) =>
    let mm := m * 100
    if mm = 0 then (0, 0)
    else
      let a := bitLen mm
      if a ≤ 53 then (mm, e)
      else (rnInt mm (2 ^ (a - 53)), e + (a - 53))

/-- Python `int()` truncation of the nonnegative dyadic m·2^e. -/
def ftrunc : Nat × Int → Nat
  | (m, e) => if 0 ≤ e then m * 2 ^ e.toNat else m / 2 ^ (-e).toNat

/-- The progress value the worker emits for file idx of total:
`int((idx / total) * 100)` evaluated in IEEE double precision exactly as
Python evaluates it — correctly rounded division, correctly rounded
multiplication by 100, truncation toward zero.  On reachable inputs this
differs from the exact floor of idx/total·100: for idx 29 of 50 the double
computation yields 57 while the exact floor is 58.  (total = 0 never occurs:
the worker only reaches the loop when discovery was nonempty.) -/
def pyProgress (idx total : Nat) : Nat :=
  if total = 0 then 0 else ftrunc (fmul100 (roundRat idx total))

-- Cross-checks against the values CPython produces for int((i/N)*100).
example : pyProgress 1 2 = 50 := by decide
example : pyProgress 1 3 = 33 := by decide
example : pyProgress 2 3 = 66 := by decide
example : pyProgress 7 100 = 7 := by decide
example : pyProgress 29 100 = 28 := by decide
example : pyProgress 29 50 = 57 := by decide
example : pyProgress 50 50 = 100 := by decide

/-- One iteration of the worker's `for idx, file_path in enumerate(...)` loop.
On an engine failure the `continue` statement skips the progress/status
emission at the bottom of the loop body; the load-failure `except` branch
falls through to it.  The emitted progress value is the double-precision
`int((idx / total) * 100)`, modelled exactly by `pyProgress`. -/
def stepFile (fs : FS) (fresh : Nat → List Char) (total : Nat)
    (acc : Stats × List Nat × List String) (ip : Nat × String) :
    Stats × List Nat × List String :=
  let st := acc.1
  let ps := acc.2.1
  let ss := acc.2.2
  let idx := ip.1
  let path := ip.2
  match fileOutcome fs fresh path with
  | .engineErr m =>
    ({ st with failed := st.failed + 1,
               errors := st.errors ++ [baseName path ++ ": " ++ m] }, ps, ss)
  | .loadErr m =>
    ({ st with failed := st.failed + 1,
               errors := st.errors ++ [baseName path ++ ": " ++ m] },
     ps ++ [pyProgress idx total], ss ++ [statusLine idx total path])
  | .okFile k =>
    ({ st with successful := st.successful + 1,
               total_tags_removed := st.total_tags_removed + k },
     ps ++ [pyProgress idx total], ss ++ [statusLine idx total path])

/-- The worker loop over the enumerated file list. -/
def runLoop (fs : FS) (fresh : Nat → List Char) (total : Nat)
    (items : List (Nat × String)) (acc : Stats × List Nat × List String) :
    Stats × List Nat × List String :=
  items.foldl (stepFile fs fresh total) acc

/-- The method `AnonymizationWorker.run`: discovery, the empty-discovery error (before
the output directory is created), then the per-file loop and the final
`finished` emission with `status = success`. -/
def runWorker (fs : FS) (fresh : Nat → List Char) (input_dir : String)
    (_output_dir : String) : RunResult :=
  let dicom_files := find_dicom_files fs input_dir
  if dicom_files.isEmpty then
    { finished := .error "No DICOM files found",
      progressEvents := [], statusEvents := [], createdOutputDir := false }
  else
    let st0 : Stats :=
      { total := dicom_files.length, successful := 0, failed := 0,
        total_tags_removed := 0, errors := [] }
    let res := runLoop fs fresh dicom_files.length
      (dicom_files.enumFrom 1) (st0, [], [])
    { finished := .success res.1,
      progressEvents := res.2.1, statusEvents := res.2.2,
      createdOutputDir := true }

/-! ### Basic lemmas about the record operations -/

/-- All elements carrying a given tag, in order; the frame conditions below
state that these slices are preserved for untouched tags. -/
def filterTag (t : Tag) (r : Record) : Record := r.filter (tagEq t)

theorem keys_setValue (n : String) (v : Value) (r : Record) :
    keys (setValue n v r) = keys r := by
  induction r with
  | nil => rfl
  | cons e r ih =>
    simp only [setValue, keys, List.map_cons] at *
    split <;> simp_all

theorem containsTag_iff {n : String} {r : Record} :
    containsTag n r = true ↔ ∃ e ∈ r, e.1 = Tag.std n := by
  simp [containsTag, List.any_eq_true, tagEq]

theorem containsTag_eq_keys (n : String) (r : Record) :
    containsTag n r = (keys r).any (fun t => decide (t = Tag.std n)) := by
  induction r with
  | nil => rfl
  | cons e r ih =>
    simp only [containsTag, keys, List.map_cons, List.any_cons] at *
    rw [ih]
    rfl

theorem containsTag_setValue (m n : String) (v : Value) (r : Record) :
    containsTag m (setValue n v r) = containsTag m r := by
  rw [containsTag_eq_keys, containsTag_eq_keys, keys_setValue]

theorem containsTag_delElems_of (n : String) (t : Tag) (r : Record)
    (h : containsTag n (delElems t r) = true) : containsTag n r = true := by
  obtain ⟨e, he, h1⟩ := containsTag_iff.mp h
  exact containsTag_iff.mpr ⟨e, (List.mem_filter.mp he).1, h1⟩

theorem containsTag_delTag_self (n : String) (r : Record) :
    containsTag n (delTag n r) = false := by
  rw [← Bool.not_eq_true]
  intro h
  obtain ⟨e, he, h1⟩ := containsTag_iff.mp h
  have h2 := (List.mem_filter.mp he).2
  simp [tagEq, h1] at h2

theorem filterTag_delElems_ne (t t' : Tag) (r : Record) (h : t' ≠ t) :
    filterTag t (delElems t' r) = filterTag t r := by
  rw [filterTag, delElems, List.filter_filter, filterTag]
  apply List.filter_congr
  intro e _
  by_cases he : e.1 = t
  · have h1 : tagEq t e = true := by simp [tagEq, he]
    have h2 : tagEq t' e = false := by
      simp only [tagEq, decide_eq_false_iff_not, he]
      exact fun q => h q.symm
    simp [h1, h2]
  · have h1 : tagEq t e = false := by simp [tagEq, he]
    simp [h1]

theorem filterTag_setValue_ne (t : Tag) (n : String) (v : Value) (r : Record)
    (h : Tag.std n ≠ t) : filterTag t (setValue n v r) = filterTag t r := by
  rw [filterTag, setValue, List.filter_map]
  have hp : ∀ e ∈ r,
      (tagEq t ∘ fun e => if e.1 = Tag.std n then (e.1, v) else e) e = tagEq t e := by
    intro e _
    by_cases he : e.1 = Tag.std n
    · have h1 : tagEq t e = false := by
        simp only [tagEq, decide_eq_false_iff_not, he]
        exact h
      simp [Function.comp, he, tagEq, h1, fun q => h (he ▸ q)]
    · simp [Function.comp, he]
  rw [List.filter_congr hp]
  rw [filterTag]
  have h4 : List.map (fun e => if e.1 = Tag.std n then (e.1, v) else e)
      (List.filter (tagEq t) r) = List.map id (List.filter (tagEq t) r) := by
    apply List.map_congr_left
    intro e he
    have h1 := (List.mem_filter.mp he).2
    have h2 : e.1 = t := by simpa [tagEq] using h1
    have h3 : ¬e.1 = Tag.std n := fun q => h (q ▸ h2)
    simp [h3]
  rw [h4, List.map_id]

/-! ### The remove pass -/

theorem removePass_nil (rc : Record × Nat) : removePass [] rc = rc := rfl

theorem removePass_cons (n : String) (ns : List String) (rc : Record × Nat) :
    removePass (n :: ns) rc = removePass ns (removeStep rc n) := rfl

theorem containsTag_removeStep_false (n m : String) (rc : Record × Nat)
    (h : containsTag n rc.1 = false) : containsTag n (removeStep rc m).1 = false := by
  rw [removeStep]
  split
  · rw [← Bool.not_eq_true] at h ⊢
    exact fun hc => h (containsTag_delElems_of _ _ _ hc)
  · exact h

theorem containsTag_removePass_false (n : String) (ns : List String) :
    ∀ rc : Record × Nat, containsTag n rc.1 = false →
      containsTag n (removePass ns rc).1 = false := by
  induction ns with
  | nil => exact fun rc h => h
  | cons m ns ih =>
    intro rc h
    rw [removePass_cons]
    exact ih _ (containsTag_removeStep_false n m rc h)

theorem containsTag_removeStep_self (n : String) (rc : Record × Nat) :
    containsTag n (removeStep rc n).1 = false := by
  rw [removeStep]
  split
  · exact containsTag_delTag_self n rc.1
  · rename_i h
    simpa using h

theorem removePass_mem_absent (ns : List String) :
    ∀ (rc : Record × Nat) (n : String), n ∈ ns →
      containsTag n (removePass ns rc).1 = false := by
  induction ns with
  | nil => intro _ _ h; exact absurd h (List.not_mem_nil _)
  | cons m ns ih =>
    intro rc n hn
    rw [removePass_cons]
    rcases List.mem_cons.mp hn with h | h
    · subst h
      exact containsTag_removePass_false n ns _ (containsTag_removeStep_self n rc)
    · exact ih _ n h

theorem length_delTag_lt (n : String) (r : Record) (h : containsTag n r = true) :
    (delTag n r).length < r.length := by
  obtain ⟨e, he, h1⟩ := containsTag_iff.mp h
  have hle := List.length_filter_le (fun e => !(tagEq (Tag.std n) e)) r
  have hne : (r.filter fun e => !(tagEq (Tag.std n) e)).length ≠ r.length := by
    intro hq
    have h2 := List.filter_length_eq_length.mp hq e he
    simp [tagEq, h1] at h2
  exact Nat.lt_of_le_of_ne hle hne

theorem removeStep_measure (rc : Record × Nat) (n : String) :
    (removeStep rc n).2 + (removeStep rc n).1.length ≤ rc.2 + rc.1.length := by
  rw [removeStep]
  split
  · rename_i h
    have h2 := length_delTag_lt n rc.1 h
    show (rc.2 + 1) + (delTag n rc.1).length ≤ rc.2 + rc.1.length
    omega
  · exact Nat.le_refl _

theorem removePass_measure (ns : List String) :
    ∀ rc : Record × Nat,
      (removePass ns rc).2 + (removePass ns rc).1.length ≤ rc.2 + rc.1.length := by
  induction ns with
  | nil => exact fun rc => Nat.le_refl _
  | cons m ns ih =>
    intro rc
    rw [removePass_cons]
    exact Nat.le_trans (ih _) (removeStep_measure rc m)

theorem removeStep_filterTag (t : Tag) (rc : Record × Nat) (n : String)
    (h : Tag.std n ≠ t) : filterTag t (removeStep rc n).1 = filterTag t rc.1 := by
  rw [removeStep]
  split
  · exact filterTag_delElems_ne t (Tag.std n) rc.1 h
  · rfl

theorem removePass_filterTag (t : Tag) (ns : List String) :
    ∀ rc : Record × Nat, (∀ m ∈ ns, Tag.std m ≠ t) →
      filterTag t (removePass ns rc).1 = filterTag t rc.1 := by
  induction ns with
  | nil => exact fun rc _ => rfl
  | cons m ns ih =>
    intro rc h
    rw [removePass_cons]
    rw [ih _ (fun x hx => h x (List.mem_cons_of_mem m hx))]
    exact removeStep_filterTag t rc m (h m (List.mem_cons_self m ns))

/-! ### The replace pass -/

theorem replacePass_nil (rc : Record × Nat) : replacePass [] rc = rc := rfl

theorem replacePass_cons (p : String × String) (ps : List (String × String))
    (rc : Record × Nat) :
    replacePass (p :: ps) rc = replacePass ps (replaceStep rc p) := rfl

theorem replacePass_id_of_absent (ps : List (String × String)) :
    ∀ rc : Record × Nat, (∀ p ∈ ps, containsTag p.1 rc.1 = false) →
      replacePass ps rc = rc := by
  induction ps with
  | nil => exact fun rc _ => rfl
  | cons p ps ih =>
    intro rc h
    have hp : containsTag p.1 rc.1 = false := h p (List.mem_cons_self p ps)
    have hstep : replaceStep rc p = rc := by
      rw [replaceStep, hp]
      simp
    rw [replacePass_cons, hstep]
    exact ih rc (fun q hq => h q (List.mem_cons_of_mem p hq))

theorem keys_replaceStep (rc : Record × Nat) (p : String × String) :
    keys (replaceStep rc p).1 = keys rc.1 := by
  rw [replaceStep]
  split
  · exact keys_setValue _ _ _
  · rfl

theorem keys_replacePass (ps : List (String × String)) :
    ∀ rc : Record × Nat, keys (replacePass ps rc).1 = keys rc.1 := by
  induction ps with
  | nil => exact fun _ => rfl
  | cons p ps ih =>
    intro rc
    rw [replacePass_cons, ih, keys_replaceStep]

theorem replaceStep_filterTag (t : Tag) (rc : Record × Nat) (p : String × String)
    (h : Tag.std p.1 ≠ t) : filterTag t (replaceStep rc p).1 = filterTag t rc.1 := by
  rw [replaceStep]
  split
  · exact filterTag_setValue_ne t p.1 _ rc.1 h
  · rfl

theorem replacePass_filterTag (t : Tag) (ps : List (String × String)) :
    ∀ rc : Record × Nat, (∀ p ∈ ps, Tag.std p.1 ≠ t) →
      filterTag t (replacePass ps rc).1 = filterTag t rc.1 := by
  induction ps with
  | nil => exact fun _ _ => rfl
  | cons p ps ih =>
    intro rc h
    rw [replacePass_cons, ih _ (fun q hq => h q (List.mem_cons_of_mem p hq))]
    exact replaceStep_filterTag t rc p (h p (List.mem_cons_self p ps))

/-! ### The date-shift pass -/

theorem dateShiftPass_nil (rc : Record × Nat) : dateShiftPass [] rc = rc := rfl

theorem dateShiftPass_cons (n : String) (ns : List String) (rc : Record × Nat) :
    dateShiftPass (n :: ns) rc = dateShiftPass ns (dateShiftStep rc n) := rfl

theorem keys_dateShiftStep (rc : Record × Nat) (n : String) :
    keys (dateShiftStep rc n).1 = keys rc.1 := by
  rw [dateShiftStep]
  split
  · split
    · split
      · split
        · exact keys_setValue _ _ _
        · rfl
      · rfl
    · rfl
  · rfl

theorem keys_dateShiftPass (ns : List String) :
    ∀ rc : Record × Nat, keys (dateShiftPass ns rc).1 = keys rc.1 := by
  induction ns with
  | nil => exact fun _ => rfl
  | cons n ns ih =>
    intro rc
    rw [dateShiftPass_cons, ih, keys_dateShiftStep]

theorem containsTag_congr_keys {m : String} {r1 r2 : Record}
    (h : keys r1 = keys r2) : containsTag m r1 = containsTag m r2 := by
  rw [containsTag_eq_keys, containsTag_eq_keys, h]

theorem dateShiftStep_count_le (rc : Record × Nat) (n : String) :
    (dateShiftStep rc n).2 ≤ rc.2 + (if containsTag n rc.1 then 1 else 0) := by
  rw [dateShiftStep]
  split
  · split
    · split
      · split <;> simp
      · simp
    · simp
  · simp

theorem dateShiftPass_count_le (ns : List String) :
    ∀ rc : Record × Nat,
      (dateShiftPass ns rc).2 ≤
        rc.2 + ns.countP (fun n => containsTag n rc.1) := by
  induction ns with
  | nil => intro rc; simp [dateShiftPass_nil]
  | cons n ns ih =>
    intro rc
    rw [dateShiftPass_cons]
    have h1 := ih (dateShiftStep rc n)
    have h2 : ns.countP (fun m => containsTag m (dateShiftStep rc n).1) =
        ns.countP (fun m => containsTag m rc.1) := by
      apply List.countP_congr
      intro m _
      rw [containsTag_congr_keys (keys_dateShiftStep rc n)]
    rw [h2] at h1
    have h3 := dateShiftStep_count_le rc n
    have h4 : (n :: ns).countP (fun m => containsTag m rc.1) =
        ns.countP (fun m => containsTag m rc.1) +
          (if containsTag n rc.1 then 1 else 0) := by
      rw [List.countP_cons]
    omega

theorem dateShiftStep_filterTag (t : Tag) (rc : Record × Nat) (n : String)
    (h : Tag.std n ≠ t) : filterTag t (dateShiftStep rc n).1 = filterTag t rc.1 := by
  rw [dateShiftStep]
  split
  · split
    · split
      · split
        · exact filterTag_setValue_ne t n _ rc.1 h
        · rfl
      · rfl
    · rfl
  · rfl

theorem dateShiftPass_filterTag (t : Tag) (ns : List String) :
    ∀ rc : Record × Nat, (∀ m ∈ ns, Tag.std m ≠ t) →
      filterTag t (dateShiftPass ns rc).1 = filterTag t rc.1 := by
  induction ns with
  | nil => exact fun _ _ => rfl
  | cons n ns ih =>
    intro rc h
    rw [dateShiftPass_cons, ih _ (fun x hx => h x (List.mem_cons_of_mem n hx))]
    exact dateShiftStep_filterTag t rc n (h n (List.mem_cons_self n ns))

/-! ### The private-tag purge -/

theorem purge_foldl_spec (ts : List Tag) :
    ∀ (r : Record) (c : Nat),
      ts.foldl (fun acc t => (delElems t acc.1, acc.2 + 1)) (r, c) =
        (r.filter (fun e => !(ts.any (fun t => decide (e.1 = t)))), c + ts.length) := by
  induction ts with
  | nil => intro r c; simp
  | cons t ts ih =>
    intro r c
    rw [List.foldl_cons]
    rw [ih (delElems t r) (c + 1)]
    rw [Prod.mk.injEq]
    constructor
    · rw [delElems, List.filter_filter]
      apply List.filter_congr
      intro e _
      by_cases h2 : e.1 = t <;> simp [tagEq, h2]
    · rw [List.length_cons]
      omega

theorem purgePass_spec (rc : Record × Nat) :
    purgePass rc = (rc.1.filter (fun e => !e.1.is_private),
      rc.2 + ((keys rc.1).filter Tag.is_private).length) := by
  have h0 : purgePass rc =
      ((keys rc.1).filter Tag.is_private).foldl
        (fun acc t => (delElems t acc.1, acc.2 + 1)) (rc.1, rc.2) := rfl
  rw [h0, purge_foldl_spec]
  rw [Prod.mk.injEq]
  constructor
  · apply List.filter_congr
    intro e he
    cases hp : e.1.is_private with
    | true =>
      have h1 : e.1 ∈ (keys rc.1).filter Tag.is_private := by
        apply List.mem_filter.mpr
        exact ⟨List.mem_map.mpr ⟨e, he, rfl⟩, hp⟩
      have h2 : ((keys rc.1).filter Tag.is_private).any
          (fun t => decide (e.1 = t)) = true := by
        apply List.any_eq_true.mpr
        exact ⟨e.1, h1, by simp⟩
      simp [h2, hp]
    | false =>
      have h2 : ((keys rc.1).filter Tag.is_private).any
          (fun t => decide (e.1 = t)) = false := by
        rw [← Bool.not_eq_true]
        intro hq
        obtain ⟨t, ht, he2⟩ := List.any_eq_true.mp hq
        have h3 := (List.mem_filter.mp ht).2
        have h4 : e.1 = t := by simpa using he2
        rw [← h4] at h3
        rw [hp] at h3
        exact Bool.false_ne_true h3
      simp [h2, hp]
  · rfl

/-! ### The UID regeneration pass -/

theorem keys_uidStep (fresh : Nat → List Char) (rk : Record × Nat) (n : String) :
    keys (uidStep fresh rk n).1 = keys rk.1 := by
  rw [uidStep]
  split
  · exact keys_setValue _ _ _
  · rfl

theorem keys_uidPass (fresh : Nat → List Char) (r : Record) :
    keys (uidPass fresh r) = keys r := by
  rw [uidPass, keys_uidStep, keys_uidStep, keys_uidStep]

theorem uidStep_filterTag (fresh : Nat → List Char) (t : Tag) (rk : Record × Nat)
    (n : String) (h : Tag.std n ≠ t) :
    filterTag t (uidStep fresh rk n).1 = filterTag t rk.1 := by
  rw [uidStep]
  split
  · exact filterTag_setValue_ne t n _ rk.1 h
  · rfl

theorem uidPass_filterTag (fresh : Nat → List Char) (t : Tag) (r : Record)
    (h : ∀ n ∈ uidTags, Tag.std n ≠ t) :
    filterTag t (uidPass fresh r) = filterTag t r := by
  rw [uidPass]
  rw [uidStep_filterTag fresh t _ _ (h "SeriesInstanceUID" (by simp [uidTags]))]
  rw [uidStep_filterTag fresh t _ _ (h "StudyInstanceUID" (by simp [uidTags]))]
  rw [uidStep_filterTag fresh t _ _ (h "SOPInstanceUID" (by simp [uidTags]))]

theorem containsTag_filter_false (n : String) (p : Tag × Value → Bool) (r : Record)
    (h : containsTag n r = false) : containsTag n (r.filter p) = false := by
  rw [← Bool.not_eq_true] at h ⊢
  intro hc
  obtain ⟨e, he, h1⟩ := containsTag_iff.mp hc
  exact h (containsTag_iff.mpr ⟨e, (List.mem_filter.mp he).1, h1⟩)

theorem no_private_of_keys {r : Record}
    (h : ∀ t ∈ keys r, t.is_private = false) :
    ∀ e ∈ r, e.1.is_private = false := by
  intro e he
  exact h e.1 (List.mem_map.mpr ⟨e, he, rfl⟩)

theorem filterTag_purgeRecord (t : Tag) (r : Record) (h : t.is_private = false) :
    filterTag t (r.filter (fun e => !e.1.is_private)) = filterTag t r := by
  rw [filterTag, List.filter_filter, filterTag]
  apply List.filter_congr
  intro e _
  by_cases he : e.1 = t
  · simp [tagEq, he, h]
  · simp [tagEq, he]

/-! ### Counting helpers -/

theorem countP_add_countP_le_length (p q : Tag → Bool) (l : List Tag)
    (h : ∀ x ∈ l, ¬(p x = true ∧ q x = true)) :
    l.countP p + l.countP q ≤ l.length := by
  induction l with
  | nil => simp
  | cons a l ih =>
    have ha := h a (List.mem_cons_self a l)
    have hl := ih (fun x hx => h x (List.mem_cons_of_mem a hx))
    rw [List.countP_cons, List.countP_cons, List.length_cons]
    by_cases hp : p a = true
    · have hq : ¬q a = true := fun hq => ha ⟨hp, hq⟩
      rw [if_pos hp, if_neg hq]
      omega
    · by_cases hq : q a = true
      · rw [if_neg hp, if_pos hq]
        omega
      · rw [if_neg hp, if_neg hq]
        omega

/-! ### Engine-level helper lemmas -/

theorem anonymizeCore_fst (fresh : Nat → List Char) (rules : RuleSet) (r : Record) :
    (anonymizeCore fresh rules r).1 =
      uidPass fresh (purgePass (dateShiftPass rules.date_shift
        (replacePass rules.replace (removePass rules.remove (r, 0))))).1 := rfl

theorem anonymizeCore_snd (fresh : Nat → List Char) (rules : RuleSet) (r : Record) :
    (anonymizeCore fresh rules r).2 =
      (purgePass (dateShiftPass rules.date_shift
        (replacePass rules.replace (removePass rules.remove (r, 0))))).2 := rfl

theorem core_remove_absent (fresh : Nat → List Char) (rules : RuleSet) (r : Record)
    (n : String) (hn : n ∈ rules.remove) :
    containsTag n (anonymizeCore fresh rules r).1 = false := by
  rw [anonymizeCore_fst]
  rw [containsTag_congr_keys (keys_uidPass fresh _)]
  have hp : (purgePass (dateShiftPass rules.date_shift
      (replacePass rules.replace (removePass rules.remove (r, 0))))).1 =
      (dateShiftPass rules.date_shift
        (replacePass rules.replace (removePass rules.remove (r, 0)))).1.filter
        (fun e => !e.1.is_private) := by
    rw [purgePass_spec]
  rw [hp]
  apply containsTag_filter_false
  rw [containsTag_congr_keys (keys_dateShiftPass rules.date_shift _)]
  rw [containsTag_congr_keys (keys_replacePass rules.replace _)]
  exact removePass_mem_absent rules.remove (r, 0) n hn

theorem core_no_private (fresh : Nat → List Char) (rules : RuleSet) (r : Record) :
    ∀ e ∈ (anonymizeCore fresh rules r).1, e.1.is_private = false := by
  intro e he
  rw [anonymizeCore_fst] at he
  have h1 : e.1 ∈ keys (uidPass fresh (purgePass (dateShiftPass rules.date_shift
      (replacePass rules.replace (removePass rules.remove (r, 0))))).1) :=
    List.mem_map.mpr ⟨e, he, rfl⟩
  rw [keys_uidPass] at h1
  obtain ⟨e2, he2, hfst⟩ := List.mem_map.mp h1
  have hp : (purgePass (dateShiftPass rules.date_shift
      (replacePass rules.replace (removePass rules.remove (r, 0))))).1 =
      (dateShiftPass rules.date_shift
        (replacePass rules.replace (removePass rules.remove (r, 0)))).1.filter
        (fun e => !e.1.is_private) := by
    rw [purgePass_spec]
  rw [hp] at he2
  have h2 := (List.mem_filter.mp he2).2
  rw [← hfst]
  simpa using h2

theorem core_frame (fresh : Nat → List Char) (rules : RuleSet) (r : Record) (t : Tag)
    (h1 : ∀ m ∈ rules.remove, Tag.std m ≠ t)
    (h2 : ∀ p ∈ rules.replace, Tag.std p.1 ≠ t)
    (h3 : ∀ m ∈ rules.date_shift, Tag.std m ≠ t)
    (h4 : ∀ n ∈ uidTags, Tag.std n ≠ t)
    (h5 : t.is_private = false) :
    filterTag t (anonymizeCore fresh rules r).1 = filterTag t r := by
  rw [anonymizeCore_fst]
  rw [uidPass_filterTag fresh t _ h4]
  have hp : (purgePass (dateShiftPass rules.date_shift
      (replacePass rules.replace (removePass rules.remove (r, 0))))).1 =
      (dateShiftPass rules.date_shift
        (replacePass rules.replace (removePass rules.remove (r, 0)))).1.filter
        (fun e => !e.1.is_private) := by
    rw [purgePass_spec]
  rw [hp, filterTag_purgeRecord t _ h5]
  rw [dateShiftPass_filterTag t rules.date_shift _ h3]
  rw [replacePass_filterTag t rules.replace _ h2]
  exact removePass_filterTag t rules.remove (r, 0) h1

theorem replace_keys_subset_remove :
    ∀ p ∈ ANONYMIZATION_RULES.replace, p.1 ∈ ANONYMIZATION_RULES.remove := by decide

theorem core_count_le (fresh : Nat → List Char) (r : Record) :
    (anonymizeCore fresh ANONYMIZATION_RULES r).2 ≤ r.length := by
  have hmeas := removePass_measure ANONYMIZATION_RULES.remove (r, 0)
  set rc1 := removePass ANONYMIZATION_RULES.remove (r, 0) with hrc1
  have habs : ∀ p ∈ ANONYMIZATION_RULES.replace, containsTag p.1 rc1.1 = false :=
    fun p hp => removePass_mem_absent _ _ _ (replace_keys_subset_remove p hp)
  have hrc2 : replacePass ANONYMIZATION_RULES.replace rc1 = rc1 :=
    replacePass_id_of_absent _ _ habs
  have hd1 : containsTag "StudyDate" rc1.1 = false :=
    removePass_mem_absent _ _ _ (by decide)
  have hd2 : containsTag "SeriesDate" rc1.1 = false :=
    removePass_mem_absent _ _ _ (by decide)
  have hd3 : containsTag "PatientBirthDate" rc1.1 = false :=
    removePass_mem_absent _ _ _ (by decide)
  have hd4 : containsTag "ContentDate" rc1.1 = false :=
    removePass_mem_absent _ _ _ (by decide)
  have hcountP : ANONYMIZATION_RULES.date_shift.countP (fun n => containsTag n rc1.1) =
      if containsTag "AcquisitionDate" rc1.1 then 1 else 0 := by
    show List.countP _ ("StudyDate" :: "SeriesDate" :: "PatientBirthDate" ::
      "ContentDate" :: "AcquisitionDate" :: []) = _
    rw [List.countP_cons, List.countP_cons, List.countP_cons, List.countP_cons,
      List.countP_cons, List.countP_nil]
    simp only [hd1, hd2, hd3, hd4]
    simp
  have hcnt3 := dateShiftPass_count_le ANONYMIZATION_RULES.date_shift rc1
  rw [hcountP] at hcnt3
  set rc3 := dateShiftPass ANONYMIZATION_RULES.date_shift rc1 with hrc3
  have hkeys3 : keys rc3.1 = keys rc1.1 := keys_dateShiftPass _ _
  have hsnd : (anonymizeCore fresh ANONYMIZATION_RULES r).2 =
      rc3.2 + ((keys rc3.1).filter Tag.is_private).length := by
    rw [anonymizeCore_snd, ← hrc1, hrc2, ← hrc3, purgePass_spec]
  have hA : (if containsTag "AcquisitionDate" rc1.1 then 1 else 0) ≤
      (keys rc1.1).countP (fun t => decide (t = Tag.std "AcquisitionDate")) := by
    by_cases h : containsTag "AcquisitionDate" rc1.1 = true
    · rw [if_pos h]
      obtain ⟨e, he, hfst⟩ := containsTag_iff.mp h
      have hpos : 0 < (keys rc1.1).countP
          (fun t => decide (t = Tag.std "AcquisitionDate")) :=
        List.countP_pos_iff.mpr ⟨e.1, List.mem_map.mpr ⟨e, he, rfl⟩, by simp [hfst]⟩
      omega
    · rw [if_neg h]
      exact Nat.zero_le _
  have hP : ((keys rc3.1).filter Tag.is_private).length =
      (keys rc1.1).countP Tag.is_private := by
    rw [hkeys3, ← List.countP_eq_length_filter]
  have hdisj := countP_add_countP_le_length
    (fun t => decide (t = Tag.std "AcquisitionDate")) Tag.is_private (keys rc1.1)
    (by
      intro x _ hx
      obtain ⟨hxp, hxq⟩ := hx
      have h6 : x = Tag.std "AcquisitionDate" := by simpa using hxp
      rw [h6] at hxq
      simp [Tag.is_private] at hxq)
  have hkl : (keys rc1.1).length = rc1.1.length := List.length_map _ _
  have hr0 : ((r, (0 : Nat)) : Record × Nat).1.length = r.length := rfl
  omega

/-! ### Reading and writing a single attribute -/

theorem getValue_some_contains {n : String} {r : Record} {v : Value}
    (h : getValue n r = some v) : containsTag n r = true := by
  rw [getValue] at h
  cases hf : r.find? (tagEq (Tag.std n)) with
  | none => rw [hf] at h; exact absurd h (by simp)
  | some e =>
    have h1 := List.find?_some hf
    have h2 := List.mem_of_find?_eq_some hf
    exact List.any_eq_true.mpr ⟨e, h2, h1⟩

theorem getValue_setValue_self (n : String) (v : Value) (r : Record)
    (h : containsTag n r = true) : getValue n (setValue n v r) = some v := by
  induction r with
  | nil => exact absurd h (by simp [containsTag])
  | cons e r ih =>
    by_cases he : e.1 = Tag.std n
    · have h1 : tagEq (Tag.std n) (e.1, v) = true := by simp [tagEq, he]
      have h4 : setValue n v (e :: r) = (e.1, v) :: setValue n v r := by
        simp [setValue, he]
      rw [h4, getValue, List.find?_cons_of_pos _ h1]
      rfl
    · have h1 : tagEq (Tag.std n) e = false := by simp [tagEq, he]
      have h2 : containsTag n r = true := by
        rcases List.any_eq_true.mp h with ⟨e2, he2, hp⟩
        rcases List.mem_cons.mp he2 with hh | hh
        · rw [hh] at hp; rw [hp] at h1; exact absurd h1 (by simp)
        · exact List.any_eq_true.mpr ⟨e2, hh, hp⟩
      have h3 : getValue n (setValue n v r) = some v := ih h2
      have h4 : setValue n v (e :: r) = e :: setValue n v r := by
        simp [setValue, he]
      rw [h4]
      rw [getValue, List.find?_cons_of_neg _ (by simp [h1])]
      exact h3

/-! ### Characterizing the worker loop -/

/-- Whether a file counts as failed (load error or engine error). -/
def isFailureFile (fs : FS) (fresh : Nat → List Char) (p : String) : Bool :=
  match fileOutcome fs fresh p with
  | .okFile _ => false
  | _ => true

/-- Tags removed from a file, to accumulate into `total_tags_removed`. -/
def removedOf (fs : FS) (fresh : Nat → List Char) (p : String) : Nat :=
  match fileOutcome fs fresh p with
  | .okFile k => k
  | _ => 0

/-- The single error-list entry a failing file produces:
`name: message`, with the underlying error text verbatim. -/
def errEntry (fs : FS) (fresh : Nat → List Char) (p : String) : Option String :=
  match fileOutcome fs fresh p with
  | .loadErr m => some (baseName p ++ ": " ++ m)
  | .engineErr m => some (baseName p ++ ": " ++ m)
  | .okFile _ => none

/-- The progress value emitted for one enumerated file, if any — the
double-precision `int((idx / total) * 100)` computed by `pyProgress`; the
engine-failure `continue` skips the emission. -/
def progressEmit (fs : FS) (fresh : Nat → List Char) (total : Nat)
    (ip : Nat × String) : Option Nat :=
  match fileOutcome fs fresh ip.2 with
  | .engineErr _ => none
  | _ => some (pyProgress ip.1 total)

/-- The status line emitted for one enumerated file, if any. -/
def statusEmit (fs : FS) (fresh : Nat → List Char) (total : Nat)
    (ip : Nat × String) : Option String :=
  match fileOutcome fs fresh ip.2 with
  | .engineErr _ => none
  | _ => some (statusLine ip.1 total ip.2)

theorem runLoop_spec (fs : FS) (fresh : Nat → List Char) (total : Nat)
    (items : List (Nat × String)) :
    ∀ (st : Stats) (ps : List Nat) (ss : List String),
      runLoop fs fresh total items (st, ps, ss) =
        ({ st with
            successful := st.successful +
              items.countP (fun ip => !isFailureFile fs fresh ip.2),
            failed := st.failed +
              items.countP (fun ip => isFailureFile fs fresh ip.2),
            total_tags_removed := st.total_tags_removed +
              (items.map (fun ip => removedOf fs fresh ip.2)).sum,
            errors := st.errors ++ items.filterMap (fun ip => errEntry fs fresh ip.2) },
         ps ++ items.filterMap (progressEmit fs fresh total),
         ss ++ items.filterMap (statusEmit fs fresh total)) := by
  induction items with
  | nil =>
    intro st ps ss
    simp [runLoop]
  | cons ip items ih =>
    intro st ps ss
    have h0 : runLoop fs fresh total (ip :: items) (st, ps, ss) =
        runLoop fs fresh total items (stepFile fs fresh total (st, ps, ss) ip) := rfl
    rw [h0]
    cases ho : fileOutcome fs fresh ip.2 with
    | loadErr m =>
      have hstep : stepFile fs fresh total (st, ps, ss) ip =
          ({ st with failed := st.failed + 1,
                     errors := st.errors ++ [baseName ip.2 ++ ": " ++ m] },
           ps ++ [pyProgress ip.1 total], ss ++ [statusLine ip.1 total ip.2]) := by
        simp [stepFile, ho]
      rw [hstep, ih]
      simp [isFailureFile, removedOf, errEntry, progressEmit, statusEmit, ho,
        List.countP_cons, List.filterMap_cons]
      all_goals omega
    | engineErr m =>
      have hstep : stepFile fs fresh total (st, ps, ss) ip =
          ({ st with failed := st.failed + 1,
                     errors := st.errors ++ [baseName ip.2 ++ ": " ++ m] },
           ps, ss) := by
        simp [stepFile, ho]
      rw [hstep, ih]
      simp [isFailureFile, removedOf, errEntry, progressEmit, statusEmit, ho,
        List.countP_cons, List.filterMap_cons]
      all_goals omega
    | okFile k =>
      have hstep : stepFile fs fresh total (st, ps, ss) ip =
          ({ st with successful := st.successful + 1,
                     total_tags_removed := st.total_tags_removed + k },
           ps ++ [pyProgress ip.1 total], ss ++ [statusLine ip.1 total ip.2]) := by
        simp [stepFile, ho]
      rw [hstep, ih]
      simp [isFailureFile, removedOf, errEntry, progressEmit, statusEmit, ho,
        List.countP_cons, List.filterMap_cons]
      all_goals omega

theorem countP_not_add_countP {α : Type} (p : α → Bool) (l : List α) :
    l.countP (fun a => !p a) + l.countP p = l.length := by
  induction l with
  | nil => rfl
  | cons a l ih =>
    rw [List.countP_cons, List.countP_cons, List.length_cons]
    by_cases h : p a = true
    · rw [if_pos h, if_neg (by simp [h])]
      omega
    · rw [if_neg h, if_pos (by simp [Bool.not_eq_true] at h; simp [h])]
      omega

theorem runWorker_empty (fs : FS) (fresh : Nat → List Char)
    (input output : String) (h : find_dicom_files fs input = []) :
    runWorker fs fresh input output =
      { finished := .error "No DICOM files found",
        progressEvents := [], statusEvents := [], createdOutputDir := false } := by
  simp [runWorker, h]

theorem runWorker_spec (fs : FS) (fresh : Nat → List Char) (input output : String)
    (h : find_dicom_files fs input ≠ []) :
    runWorker fs fresh input output =
      { finished := .success
          { total := (find_dicom_files fs input).length,
            successful := ((find_dicom_files fs input).enumFrom 1).countP
              (fun ip => !isFailureFile fs fresh ip.2),
            failed := ((find_dicom_files fs input).enumFrom 1).countP
              (fun ip => isFailureFile fs fresh ip.2),
            total_tags_removed := (((find_dicom_files fs input).enumFrom 1).map
              (fun ip => removedOf fs fresh ip.2)).sum,
            errors := ((find_dicom_files fs input).enumFrom 1).filterMap
              (fun ip => errEntry fs fresh ip.2) },
        progressEvents := ((find_dicom_files fs input).enumFrom 1).filterMap
          (progressEmit fs fresh (find_dicom_files fs input).length),
        statusEvents := ((find_dicom_files fs input).enumFrom 1).filterMap
          (statusEmit fs fresh (find_dicom_files fs input).length),
        createdOutputDir := true } := by
  have hne : (find_dicom_files fs input).isEmpty = false := by
    cases hq : find_dicom_files fs input with
    | nil => exact absurd hq h
    | cons a l => rfl
  simp only [runWorker, hne, Bool.false_eq_true, if_false]
  rw [runLoop_spec]
  simp

/-! ### Concrete fixtures used by counterexamples and witnesses -/

/-- A concrete deterministic stand-in for `pydicom.uid.generate_uid`. -/
def fresh0 : Nat → List Char := fun k => ("2.25." ++ toString k).toList

/-- A one-attribute record carrying a patient name. -/
def demoNameRec : Record := [(Tag.std "PatientName", Value.str "John Doe".toList)]

/-- A record with one standard non-sensitive attribute (Modality). -/
def demoFrameRec : Record :=
  [(Tag.std "Modality", Value.str "CT".toList),
   (Tag.std "PatientName", Value.str "John Doe".toList)]

/-! ### Claims C1 to C5 -/

/-- C2 counterexample: the claim that no tag appears in both the remove list
and the replace mapping of the default rule set is false — `PatientName` is
in both. -/
theorem C2_counterexample :
    "PatientName" ∈ ANONYMIZATION_RULES.remove ∧
    "PatientName" ∈ ANONYMIZATION_RULES.replace.map Prod.fst := by decide

/-- C2 amended: far from being disjoint, every key of the replace mapping
also appears in the remove list; consequently, after the remove pass has run,
the replace pass finds none of its targets and leaves the record and the
count unchanged. -/
theorem C2_amended :
    (∀ p ∈ ANONYMIZATION_RULES.replace, p.1 ∈ ANONYMIZATION_RULES.remove) ∧
    ∀ r : Record,
      replacePass ANONYMIZATION_RULES.replace
        (removePass ANONYMIZATION_RULES.remove (r, 0)) =
      removePass ANONYMIZATION_RULES.remove (r, 0) := by
  refine ⟨replace_keys_subset_remove, fun r => ?_⟩
  exact replacePass_id_of_absent _ _
    (fun p hp => removePass_mem_absent _ _ _ (replace_keys_subset_remove p hp))

/-- C2 amended witness at a concrete pair and record. -/
theorem C2_amended_witness :
    "PatientID" ∈ ANONYMIZATION_RULES.remove ∧
    replacePass ANONYMIZATION_RULES.replace
        (removePass ANONYMIZATION_RULES.remove (demoNameRec, 0)) =
      removePass ANONYMIZATION_RULES.remove (demoNameRec, 0) :=
  ⟨C2_amended.1 ("PatientID", "ANON-ID-001") (by decide), C2_amended.2 demoNameRec⟩

/-- C1 counterexample: on a record holding only `PatientName`, the default
rules leave `PatientName` absent — not present with the configured literal
`ANONYMIZED` as the claim requires (the remove pass deletes it before the
replace pass looks for it). -/
theorem C1_counterexample :
    containsTag "PatientName"
      (anonymizeCore fresh0 ANONYMIZATION_RULES demoNameRec).1 = false ∧
    ¬ getValue "PatientName"
      (anonymizeCore fresh0 ANONYMIZATION_RULES demoNameRec).1 =
        some (Value.str "ANONYMIZED".toList) := by decide

/-- C1 amended: for every record, the default rules leave every identifier of
the remove category absent, every identifier of the replace category likewise
absent (each replace key is also in the remove list, so removal wins and the
configured literal is never installed), no private attribute in the result,
and every identifier outside the remove/replace/date-shift/UID categories
untouched. -/
theorem C1_amended (fresh : Nat → List Char) (r : Record) :
    (∀ n ∈ ANONYMIZATION_RULES.remove,
      containsTag n (anonymizeCore fresh ANONYMIZATION_RULES r).1 = false) ∧
    (∀ p ∈ ANONYMIZATION_RULES.replace,
      containsTag p.1 (anonymizeCore fresh ANONYMIZATION_RULES r).1 = false) ∧
    (∀ e ∈ (anonymizeCore fresh ANONYMIZATION_RULES r).1, e.1.is_private = false) ∧
    (∀ n : String, n ∉ ANONYMIZATION_RULES.remove →
      n ∉ ANONYMIZATION_RULES.replace.map Prod.fst →
      n ∉ ANONYMIZATION_RULES.date_shift → n ∉ uidTags →
      filterTag (Tag.std n) (anonymizeCore fresh ANONYMIZATION_RULES r).1 =
        filterTag (Tag.std n) r) := by
  refine ⟨?_, ?_, core_no_private fresh ANONYMIZATION_RULES r, ?_⟩
  · intro n hn
    exact core_remove_absent fresh ANONYMIZATION_RULES r n hn
  · intro p hp
    exact core_remove_absent fresh ANONYMIZATION_RULES r p.1
      (replace_keys_subset_remove p hp)
  · intro n h1 h2 h3 h4
    apply core_frame
    · intro m hm hq
      exact h1 ((Tag.std.injEq m n).mp hq ▸ hm)
    · intro p hp hq
      exact h2 (List.mem_map.mpr ⟨p, hp, (Tag.std.injEq p.1 n).mp hq⟩)
    · intro m hm hq
      exact h3 ((Tag.std.injEq m n).mp hq ▸ hm)
    · intro m hm hq
      exact h4 ((Tag.std.injEq m n).mp hq ▸ hm)
    · rfl

/-- C1 amended witness: a concrete record on which the removal, privacy and
frame conclusions are instantiated. -/
theorem C1_amended_witness :
    containsTag "PatientName"
      (anonymizeCore fresh0 ANONYMIZATION_RULES demoFrameRec).1 = false ∧
    filterTag (Tag.std "Modality")
      (anonymizeCore fresh0 ANONYMIZATION_RULES demoFrameRec).1 =
      filterTag (Tag.std "Modality") demoFrameRec := by
  constructor
  · exact (C1_amended fresh0 demoFrameRec).1 "PatientName" (by decide)
  · exact (C1_amended fresh0 demoFrameRec).2.2.2 "Modality"
      (by decide) (by decide) (by decide) (by decide)

/-- C3 counterexample: a record with `StudyDate = "20210615"` yields a record
with no `StudyDate` at all — not one where `StudyDate = "20210101"` as the
claim states; `StudyDate` is in the remove list and is deleted before the
date-shift pass runs. -/
theorem C3_counterexample :
    getValue "StudyDate" (anonymizeCore fresh0 ANONYMIZATION_RULES
      [(Tag.std "StudyDate", Value.str "20210615".toList)]).1 = none ∧
    ¬ getValue "StudyDate" (anonymizeCore fresh0 ANONYMIZATION_RULES
      [(Tag.std "StudyDate", Value.str "20210615".toList)]).1 =
        some (Value.str "20210101".toList) := by decide

/-- C3 amended: under the default rules `StudyDate` is always absent from the
output (removed, never date-shifted); the year-plus-`0101` coarsening claimed
for `StudyDate` is observable only on `AcquisitionDate`, the one date-shift
target not in the remove list: `"20210615"` becomes `"20210101"` there. -/
theorem C3_amended :
    (∀ (fresh : Nat → List Char) (r : Record),
      containsTag "StudyDate" (anonymizeCore fresh ANONYMIZATION_RULES r).1 = false) ∧
    getValue "AcquisitionDate" (anonymizeCore fresh0 ANONYMIZATION_RULES
      [(Tag.std "AcquisitionDate", Value.str "20210615".toList)]).1 =
      some (Value.str "20210101".toList) := by
  constructor
  · intro fresh r
    exact core_remove_absent fresh ANONYMIZATION_RULES r "StudyDate" (by decide)
  · decide

/-- C4: one date-shift step on an attribute with value `v`.  If `str(v)`
raises, the attribute and the count are untouched; if the stringified value
is shorter than 8 characters, both are untouched; if it has at least 8
characters, the count increases by one and the new value keeps the first
four characters (the year) and replaces the rest with the fixed suffix
`0101`. -/
theorem C4_dateshift (r : Record) (c : Nat) (n : String) (v : Value)
    (hv : getValue n r = some v) :
    (v.stringify = none → dateShiftStep (r, c) n = (r, c)) ∧
    (∀ s, v.stringify = some s → s.length < 8 → dateShiftStep (r, c) n = (r, c)) ∧
    (∀ s, v.stringify = some s → 8 ≤ s.length →
      (dateShiftStep (r, c) n).2 = c + 1 ∧
      getValue n (dateShiftStep (r, c) n).1 =
        some (Value.str (s.take 4 ++ "0101".toList)) ∧
      (s.take 4 ++ "0101".toList).take 4 = s.take 4 ∧
      (s.take 4 ++ "0101".toList).drop 4 = "0101".toList) := by
  have hc : containsTag n r = true := getValue_some_contains hv
  have h0 : dateShiftStep (r, c) n =
      if containsTag n r then
        match getValue n r with
        | some v =>
          match v.stringify with
          | some s =>
            if 8 ≤ s.length then
              (setValue n (.str (s.take 4 ++ "0101".toList)) r, c + 1)
            else (r, c)
          | none => (r, c)
        | none => (r, c)
      else (r, c) := rfl
  refine ⟨?_, ?_, ?_⟩
  · intro hs
    rw [h0, if_pos hc, hv]
    simp [hs]
  · intro s hs hlen
    rw [h0, if_pos hc, hv]
    simp only [hs]
    rw [if_neg (by omega)]
  · intro s hs hlen
    have h1 : dateShiftStep (r, c) n =
        (setValue n (.str (s.take 4 ++ "0101".toList)) r, c + 1) := by
      rw [h0, if_pos hc, hv]
      simp only [hs]
      rw [if_pos hlen]
    have htk : (s.take 4).length = 4 := by
      rw [List.length_take]
      omega
    refine ⟨by rw [h1], ?_, ?_, ?_⟩
    · rw [h1]
      exact getValue_setValue_self n _ r hc
    · exact List.take_left' htk
    · exact List.drop_left' htk

/-- C4 witness: the step applied to a concrete `AcquisitionDate` attribute
with an 8-character value, and to concrete short and unstringifiable
values. -/
theorem C4_dateshift_witness :
    (dateShiftStep ([(Tag.std "AcquisitionDate", Value.str "20210615".toList)], 0)
        "AcquisitionDate").2 = 1 ∧
    dateShiftStep ([(Tag.std "AcquisitionDate", Value.str "2021".toList)], 0)
        "AcquisitionDate" =
      ([(Tag.std "AcquisitionDate", Value.str "2021".toList)], 0) ∧
    dateShiftStep ([(Tag.std "AcquisitionDate", Value.raw 7)], 0)
        "AcquisitionDate" =
      ([(Tag.std "AcquisitionDate", Value.raw 7)], 0) := by
  refine ⟨?_, ?_, ?_⟩
  · exact ((C4_dateshift [(Tag.std "AcquisitionDate", Value.str "20210615".toList)]
      0 "AcquisitionDate" (Value.str "20210615".toList) rfl).2.2
      "20210615".toList rfl (by decide)).1
  · exact (C4_dateshift [(Tag.std "AcquisitionDate", Value.str "2021".toList)]
      0 "AcquisitionDate" (Value.str "2021".toList) rfl).2.1
      "2021".toList rfl (by decide)
  · exact (C4_dateshift [(Tag.std "AcquisitionDate", Value.raw 7)]
      0 "AcquisitionDate" (Value.raw 7) rfl).1 rfl

/-- C5: on any enumerable record the engine never fails: it returns a
success together with a mutation count that never exceeds the number of
attributes the record held before mutation; a structurally invalid input is
reported as a failure carrying the descriptive message, never as a partial
result. -/
theorem C5_never_raises (fresh : Nat → List Char) :
    (∀ r : Record, ∃ rc : Record × Nat,
      anonymize_dicom fresh ANONYMIZATION_RULES (.ds r) = .ok rc ∧
        rc.2 ≤ r.length) ∧
    (∀ m : String,
      anonymize_dicom fresh ANONYMIZATION_RULES (.invalid m) = .error m) := by
  constructor
  · intro r
    exact ⟨anonymizeCore fresh ANONYMIZATION_RULES r, rfl, core_count_le fresh r⟩
  · intro m
    rfl

/-! ### Batch pipeline fixtures -/

/-- A directory with one loadable record and one corrupt file. -/
def fsDemo : FS :=
  { dirs := ["in"],
    files := [("in/a.dcm", .data (.ds demoNameRec)),
              ("in/b.dcm", .loadFail "bad header")] }

/-- A directory whose single file loads but makes the engine report
failure. -/
def fsEng : FS :=
  { dirs := ["in"], files := [("in/a.dcm", .data (.invalid "boom"))] }

/-- An existing directory with no record files. -/
def fsEmpty : FS := { dirs := ["in"], files := [] }

/-- An empty filesystem: the input root does not exist at all. -/
def fsNone : FS := { dirs := [], files := [] }

example : find_dicom_files fsDemo "in" = ["in/a.dcm", "in/b.dcm"] := by decide

example :
    runWorker fsDemo fresh0 "in" "out" =
      { finished := .success
          { total := 2, successful := 1, failed := 1, total_tags_removed := 1,
            errors := ["b.dcm: Error loading DICOM: bad header"] },
        progressEvents := [50, 100],
        statusEvents := ["Processing 1/2: a.dcm", "Processing 2/2: b.dcm"],
        createdOutputDir := true } := by decide

/-- The statistics the demo run produces. -/
def sDemo : Stats :=
  { total := 2, successful := 1, failed := 1, total_tags_removed := 1,
    errors := ["b.dcm: Error loading DICOM: bad header"] }

/-! ### Claims C6 to C10 -/

/-- C6: whenever a run finishes with status success, the final statistics
satisfy `successful + failed = total`, and `total` is the number of files
discovery returned on the same input tree. -/
theorem C6_stats (fs : FS) (fresh : Nat → List Char) (input output : String)
    (st : Stats) (h : (runWorker fs fresh input output).finished = .success st) :
    st.successful + st.failed = st.total ∧
    st.total = (find_dicom_files fs input).length := by
  by_cases hne : find_dicom_files fs input = []
  · rw [runWorker_empty fs fresh input output hne] at h
    exact RunFinished.noConfusion h
  · rw [runWorker_spec fs fresh input output hne] at h
    injection h with h2
    rw [← h2]
    constructor
    · exact (countP_not_add_countP (fun ip => isFailureFile fs fresh ip.2)
        ((find_dicom_files fs input).enumFrom 1)).trans List.enumFrom_length
    · rfl

/-- C6 witness: the demo run over one good and one corrupt file. -/
theorem C6_stats_witness :
    sDemo.successful + sDemo.failed = sDemo.total ∧
    sDemo.total = (find_dicom_files fsDemo "in").length :=
  C6_stats fsDemo fresh0 "in" "out" sDemo (by decide)

/-- C7 counterexample: a run over a single file on which the engine reports
failure emits no progress update and no status line at all — the `continue`
in the loop body skips the emission — refuting the claim that a progress
update and status line follow every processed file regardless of outcome. -/
theorem C7_counterexample :
    (find_dicom_files fsEng "in").length = 1 ∧
    (runWorker fsEng fresh0 "in" "out").progressEvents = [] ∧
    (runWorker fsEng fresh0 "in" "out").statusEvents = [] := by decide

/-- C7 amended: the emitted progress values and status lines are exactly
those of the files whose outcome is not an engine failure, in order: such a
file with index `i` of `N` contributes the double-precision value
`int((i/N)*100)` (which can fall below the exact `floor(i/N*100)`: for
`i = 29` of `N = 50` the program emits 57 where the exact floor is 58) and a
status line naming it, while a file on which the engine reports failure
contributes neither (the load-failure path still emits both). -/
theorem C7_amended (fs : FS) (fresh : Nat → List Char) (input output : String)
    (h : find_dicom_files fs input ≠ []) :
    ((runWorker fs fresh input output).progressEvents =
        ((find_dicom_files fs input).enumFrom 1).filterMap
          (progressEmit fs fresh (find_dicom_files fs input).length) ∧
      (runWorker fs fresh input output).statusEvents =
        ((find_dicom_files fs input).enumFrom 1).filterMap
          (statusEmit fs fresh (find_dicom_files fs input).length)) ∧
    (∀ ip : Nat × String,
      (∀ m, ¬ fileOutcome fs fresh ip.2 = Outcome.engineErr m) →
        progressEmit fs fresh (find_dicom_files fs input).length ip =
          some (pyProgress ip.1 (find_dicom_files fs input).length) ∧
        statusEmit fs fresh (find_dicom_files fs input).length ip =
          some (statusLine ip.1 (find_dicom_files fs input).length ip.2)) ∧
    (∀ (ip : Nat × String) (m : String),
      fileOutcome fs fresh ip.2 = Outcome.engineErr m →
        progressEmit fs fresh (find_dicom_files fs input).length ip = none ∧
        statusEmit fs fresh (find_dicom_files fs input).length ip = none) ∧
    (pyProgress 29 50 = 57 ∧ 29 * 100 / 50 = 58) := by
  refine ⟨?_, ?_, ?_, by decide⟩
  · rw [runWorker_spec fs fresh input output h]
    exact ⟨rfl, rfl⟩
  · intro ip hne
    rw [progressEmit, statusEmit]
    cases ho : fileOutcome fs fresh ip.2 with
    | loadErr m => exact ⟨rfl, rfl⟩
    | engineErr m => exact absurd ho (hne m)
    | okFile k => exact ⟨rfl, rfl⟩
  · intro ip m ho
    rw [progressEmit, statusEmit, ho]
    exact ⟨rfl, rfl⟩

/-- C7 amended witness at the demo filesystem. -/
theorem C7_amended_witness :
    (runWorker fsDemo fresh0 "in" "out").progressEvents =
      ((find_dicom_files fsDemo "in").enumFrom 1).filterMap
        (progressEmit fsDemo fresh0 (find_dicom_files fsDemo "in").length) :=
  ((C7_amended fsDemo fresh0 "in" "out" (by decide)).1).1

/-- C8: each failing file (load error or engine error) contributes exactly
one error-list entry, formed from the file name and the underlying message
verbatim, and exactly one increment of `failed`; successes contribute
neither; and the run still finishes with status success — a per-record
failure never aborts the batch. -/
theorem C8_per_file_failure (fs : FS) (fresh : Nat → List Char)
    (input output : String) (h : find_dicom_files fs input ≠ []) :
    (∃ st : Stats, (runWorker fs fresh input output).finished = .success st ∧
      st.errors = ((find_dicom_files fs input).enumFrom 1).filterMap
        (fun ip => errEntry fs fresh ip.2) ∧
      st.failed = ((find_dicom_files fs input).enumFrom 1).countP
        (fun ip => isFailureFile fs fresh ip.2)) ∧
    (∀ p m : String, fileOutcome fs fresh p = .loadErr m →
      errEntry fs fresh p = some (baseName p ++ ": " ++ m) ∧
      isFailureFile fs fresh p = true) ∧
    (∀ p m : String, fileOutcome fs fresh p = .engineErr m →
      errEntry fs fresh p = some (baseName p ++ ": " ++ m) ∧
      isFailureFile fs fresh p = true) ∧
    (∀ (p : String) (k : Nat), fileOutcome fs fresh p = .okFile k →
      errEntry fs fresh p = none ∧ isFailureFile fs fresh p = false) := by
  refine ⟨?_, ?_, ?_, ?_⟩
  · rw [runWorker_spec fs fresh input output h]
    exact ⟨_, rfl, rfl, rfl⟩
  · intro p m ho
    rw [errEntry, isFailureFile, ho]
    exact ⟨rfl, rfl⟩
  · intro p m ho
    rw [errEntry, isFailureFile, ho]
    exact ⟨rfl, rfl⟩
  · intro p k ho
    rw [errEntry, isFailureFile, ho]
    exact ⟨rfl, rfl⟩

/-- C8 witness: the demo run with its one corrupt file. -/
theorem C8_per_file_failure_witness :
    ∃ st : Stats, (runWorker fsDemo fresh0 "in" "out").finished = .success st ∧
      st.errors = ((find_dicom_files fsDemo "in").enumFrom 1).filterMap
        (fun ip => errEntry fsDemo fresh0 ip.2) ∧
      st.failed = ((find_dicom_files fsDemo "in").enumFrom 1).countP
        (fun ip => isFailureFile fsDemo fresh0 ip.2) :=
  (C8_per_file_failure fsDemo fresh0 "in" "out" (by decide)).1

/-- C9: a run whose discovery finds zero files finishes with the
`No DICOM files found` error, emits no progress or status events (no
processing), produces no statistics, and does not create the output
directory. -/
theorem C9_empty_discovery (fs : FS) (fresh : Nat → List Char)
    (input output : String) (h : find_dicom_files fs input = []) :
    runWorker fs fresh input output =
      { finished := .error "No DICOM files found",
        progressEvents := [], statusEvents := [], createdOutputDir := false } :=
  runWorker_empty fs fresh input output h

/-- C9 witness: a run over an existing but empty input directory. -/
theorem C9_empty_discovery_witness :
    runWorker fsEmpty fresh0 "in" "out" =
      { finished := .error "No DICOM files found",
        progressEvents := [], statusEvents := [], createdOutputDir := false } :=
  C9_empty_discovery fsEmpty fresh0 "in" "out" (by decide)

/-- C10: for a path that does not exist, `find_dicom_files` returns the
empty list (it is a total function — no exception), so a run over a
nonexistent input root produces exactly the same observable result as a run
whose discovery comes back empty for any other reason, such as an existing
but empty directory. -/
theorem C10_nonexistent_input (fs : FS) (input : String)
    (h : fs.pathExists input = false) :
    find_dicom_files fs input = [] ∧
    ∀ (fs2 : FS) (input2 output output2 : String) (f1 f2 : Nat → List Char),
      find_dicom_files fs2 input2 = [] →
      runWorker fs f1 input output = runWorker fs2 f2 input2 output2 := by
  have h1 : find_dicom_files fs input = [] := by simp [find_dicom_files, h]
  refine ⟨h1, ?_⟩
  intro fs2 input2 output output2 f1 f2 h2
  rw [runWorker_empty fs f1 input output h1,
    runWorker_empty fs2 f2 input2 output2 h2]

/-- C10 witness: a nonexistent root versus an existing empty directory. -/
theorem C10_nonexistent_input_witness :
    find_dicom_files fsNone "in" = [] ∧
    runWorker fsNone fresh0 "in" "out" = runWorker fsEmpty fresh0 "in" "out2" := by
  constructor
  · exact (C10_nonexistent_input fsNone "in" (by decide)).1
  · exact (C10_nonexistent_input fsNone "in" (by decide)).2 fsEmpty "in" "out" "out2"
      fresh0 fresh0 (by decide)

end DicomApp
